import Mathlib

/-!
Verification of the real-time presence and delivery layer of the chat relay
server (`backend/app/socketio_handlers.py` and `backend/app/routes/messages.py`).

The registry `room_users : dict[str, dict[str, set]]` is embedded as an
association list preserving Python dict insertion order; Python sets of
session ids are embedded as duplicate-free lists where only membership and
emptiness matter. Each socket event handler becomes a pure function from the
shared state (transport room membership plus the `room_users` registry) and
its inputs to the updated state together with the list of emitted events.
-/

set_option autoImplicit false

namespace ChatRelay

/-- Session id assigned by the transport layer (`request.sid`). -/
abbrev Sid := Nat

/-- Value of the `username` field of a payload: `none` models Python `None`. -/
abbrev UKey := Option String

/-- Python truthiness of an optional string: `None` and `""` are falsy. -/
def truthy : Option String → Bool
  | none => false
  | some s => s ≠ ""

/-- Channel key used with the transport layer: the code builds the strings
`"room_" ++ slug` and `"user_" ++ str(id)`; the two fixed prefixes keep the
two families disjoint, which the two constructors capture. -/
inductive Chan
  | room (slug : String)
  | user (uid : Nat)
deriving DecidableEq, Repr

/-- Target of an emitted event: `emit(...)` with no room argument goes to the
requesting connection only; `emit(..., room=c)` goes to the members of `c`,
minus the requester when `include_self=False`. -/
inductive Tgt
  | toRequester
  | toRoom (c : Chan) (includeSelf : Bool)
deriving DecidableEq, Repr

/-- Payload of an emitted event, one constructor per payload shape in the code. -/
inductive Pay
  | statusP (status : String)
  | slugP (room_slug : String)
  | userP (room_slug : String) (username : Option String)
  | usersP (room_slug : String) (users : List UKey)
  | msgP (message_id : Nat) (sender_id : Nat) (recipient_id : Nat)
      (ciphertext : String) (nonce : Option String) (message_type : String)
      (created_at : String)
deriving DecidableEq, Repr

/-- An emitted event: name, target and payload. -/
structure Out where
  name : String
  tgt : Tgt
  pay : Pay
deriving DecidableEq, Repr

section AList

variable {α : Type} {β : Type} [DecidableEq α]

/-- Python `d.get(k)` / `k in d`: value at the first matching key. -/
def alookup : List (α × β) → α → Option β
  | [], _ => none
  | (k, v) :: rest, a => if k = a then some v else alookup rest a

/-- Python `d[k] = v`: replace the value at the key in place, else append. -/
def aupdate : List (α × β) → α → β → List (α × β)
  | [], a, b => [(a, b)]
  | (k, v) :: rest, a, b =>
      if k = a then (a, b) :: rest else (k, v) :: aupdate rest a b

/-- Python `del d[k]`: drop the first entry at the key. -/
def adelete : List (α × β) → α → List (α × β)
  | [], _ => []
  | (k, v) :: rest, a => if k = a then rest else (k, v) :: adelete rest a

/-- Python `list(d.keys())`: keys in insertion order. -/
def akeys (l : List (α × β)) : List α := l.map Prod.fst

end AList

/-- Python `s.add(x)` on a set modelled as a duplicate-free list. -/
def setAdd (s : List Sid) (x : Sid) : List Sid :=
  if x ∈ s then s else s ++ [x]

/-- Python `s.discard(x)`. -/
def setDiscard (s : List Sid) (x : Sid) : List Sid :=
  s.filter (fun y => y ≠ x)

/-- The inner `dict[str, set]` of `room_users`: identity to session-id set. -/
abbrev UsersMap := List (UKey × List Sid)

/-- The global `room_users : dict[str, dict[str, set]]` registry. -/
abbrev Registry := List (String × UsersMap)

/-- Transport-layer room membership maintained by `join_room`/`leave_room`. -/
abbrev TRooms := List (Chan × List Sid)

/-- Members of a transport room. -/
def troomMembers (tr : TRooms) (c : Chan) : List Sid :=
  (alookup tr c).getD []

/-- Effect of `flask_socketio.join_room`. -/
def troomJoin (tr : TRooms) (c : Chan) (sid : Sid) : TRooms :=
  aupdate tr c (setAdd (troomMembers tr c) sid)

/-- Effect of `flask_socketio.leave_room`. -/
def troomLeave (tr : TRooms) (c : Chan) (sid : Sid) : TRooms :=
  aupdate tr c (setDiscard (troomMembers tr c) sid)

/-- Shared mutable state of the gateway: transport room membership and the
`room_users` registry. -/
structure St where
  tr : TRooms
  ru : Registry
deriving DecidableEq, Repr

/-- Inner map of a room slug, `room_users.get(slug, {})`. -/
def roomMap (ru : Registry) (slug : String) : UsersMap :=
  (alookup ru slug).getD []

/-- Connections currently registered to `(slug, u)`. -/
def sidsOf (ru : Registry) (slug : String) (u : UKey) : List Sid :=
  (alookup (roomMap ru slug) u).getD []

/-- The three tracking lines of `handle_join_room` / `handle_user_joined`:
create the room entry if absent, create the identity entry if absent, add the
session id to the identity's set. -/
def registryAdd (ru : Registry) (slug : String) (u : UKey) (sid : Sid) : Registry :=
  let users := roomMap ru slug
  let sids := (alookup users u).getD []
  aupdate ru slug (aupdate users u (setAdd sids sid))

/-- Removal step shared by `handle_user_left` and `handle_leave_room`:
when the room exists, the username is truthy and tracked, discard the session
id; delete the identity entry when its set becomes empty. Returns the updated
registry and whether the identity entry was deleted (the "fully departed"
signal of the spec). -/
def leaveUpdate (ru : Registry) (slug : String) (u : UKey) (sid : Sid) :
    Registry × Bool :=
  match alookup ru slug with
  | none => (ru, false)
  | some users =>
      if truthy u then
        match alookup users u with
        | none => (ru, false)
        | some sids =>
            let rest := setDiscard sids sid
            if rest = [] then (aupdate ru slug (adelete users u), true)
            else (aupdate ru slug (aupdate users u rest), false)
      else (ru, false)

/-- The `disconnect` scan over one room's users: discard the session id
wherever present, dropping emptied identity entries and collecting the
departed identities in iteration order. -/
def dcUsers : UsersMap → Sid → UsersMap × List UKey
  | [], _ => ([], [])
  | (u, sids) :: rest, sid =>
      let r := dcUsers rest sid
      if sid ∈ sids then
        let s' := setDiscard sids sid
        if s' = [] then (r.1, u :: r.2)
        else ((u, s') :: r.1, r.2)
      else ((u, sids) :: r.1, r.2)

/-- The `disconnect` scan over all rooms: room entries themselves are never
removed; departed `(slug, username)` pairs are collected in iteration order. -/
def dcRooms : Registry → Sid → Registry × List (String × UKey)
  | [], _ => ([], [])
  | (slug, users) :: rest, sid =>
      let u := dcUsers users sid
      let r := dcRooms rest sid
      ((slug, u.1) :: r.1, u.2.map (fun k => (slug, k)) ++ r.2)

/-- Payload of the client-to-server events carrying `room_slug`/`username`. -/
structure Data where
  room_slug : Option String := none
  username : Option String := none
deriving DecidableEq, Repr

/-- Event emitted by `user_left` broadcasts of `leave_room` and `disconnect`
(default `include_self`). -/
def userLeftOut (slug : String) (u : UKey) : Out :=
  ⟨"user_left", Tgt.toRoom (Chan.room slug) true, Pay.userP slug u⟩

/-- Handler of `connect` in the open-admission source revision: no
authentication, a `connected` acknowledgement only. -/
def handle_connect (st : St) (_sid : Sid) : St × List Out :=
  (st, [⟨"connected", Tgt.toRequester, Pay.statusP "connected"⟩])

/-- Handler of transport `disconnect`: remove the session id from every room
and identity, then broadcast `user_left` for each fully departed pair.
Transport-level room cleanup is the framework's, not the handler's. -/
def handle_disconnect (st : St) (sid : Sid) : St × List Out :=
  let r := dcRooms st.ru sid
  (⟨st.tr, r.1⟩, r.2.map (fun p => userLeftOut p.1 p.2))

/-- Handler of `join_room`: with a truthy `room_slug`, join the transport
room, track the session under the (possibly missing) username, acknowledge,
and with a truthy username also announce to the others and send the
post-insertion `active_users` snapshot to the requester. -/
def handle_join_room (st : St) (d : Data) (sid : Sid) : St × List Out :=
  match d.room_slug with
  | none => (st, [])
  | some slug =>
      if slug = "" then (st, [])
      else
        let c := Chan.room slug
        let tr1 := troomJoin st.tr c sid
        let ru1 := registryAdd st.ru slug d.username sid
        let ack : List Out := [⟨"joined_room", Tgt.toRequester, Pay.slugP slug⟩]
        let announce : List Out :=
          match d.username with
          | none => []
          | some uname =>
              if uname = "" then []
              else
                [⟨"user_joined", Tgt.toRoom c false, Pay.userP slug (some uname)⟩,
                 ⟨"active_users", Tgt.toRequester,
                   Pay.usersP slug (akeys (roomMap ru1 slug))⟩]
        (⟨tr1, ru1⟩, ack ++ announce)

/-- Handler of the explicit `user_joined` client event: track and announce to
the others, no acknowledgement and no snapshot. -/
def handle_user_joined (st : St) (d : Data) (sid : Sid) : St × List Out :=
  if truthy d.room_slug && truthy d.username then
    let slug := d.room_slug.getD ""
    let ru1 := registryAdd st.ru slug d.username sid
    (⟨st.tr, ru1⟩,
     [⟨"user_joined", Tgt.toRoom (Chan.room slug) false,
        Pay.userP slug d.username⟩])
  else (st, [])

/-- Handler of the explicit `user_left` client event: remove the session id
from the tracked pair when present, then broadcast `user_left` to the others
unconditionally. -/
def handle_user_left (st : St) (d : Data) (sid : Sid) : St × List Out :=
  if truthy d.room_slug && truthy d.username then
    let slug := d.room_slug.getD ""
    let ru1 := (leaveUpdate st.ru slug d.username sid).1
    (⟨st.tr, ru1⟩,
     [⟨"user_left", Tgt.toRoom (Chan.room slug) false,
        Pay.userP slug d.username⟩])
  else (st, [])

/-- Handler of `leave_room`: with a truthy `room_slug`, leave the transport
room, remove the session id from the tracked pair, broadcast `user_left` only
when the identity entry was deleted, and acknowledge with `left_room`. -/
def handle_leave_room (st : St) (d : Data) (sid : Sid) : St × List Out :=
  match d.room_slug with
  | none => (st, [])
  | some slug =>
      if slug = "" then (st, [])
      else
        let c := Chan.room slug
        let tr1 := troomLeave st.tr c sid
        let r := leaveUpdate st.ru slug d.username sid
        let departed : List Out :=
          if r.2 then [userLeftOut slug d.username] else []
        (⟨tr1, r.1⟩,
         departed ++ [⟨"left_room", Tgt.toRequester, Pay.slugP slug⟩])

/-- Connections a server emit reaches: `requester` is the connection bound to
the emitting request context (`none` for a server-level `socketio.emit`). -/
def recipients (tr : TRooms) (requester : Option Sid) (o : Out) : List Sid :=
  match o.tgt with
  | Tgt.toRequester =>
      match requester with
      | some s => [s]
      | none => []
  | Tgt.toRoom c includeSelf =>
      let ms := troomMembers tr c
      if includeSelf then ms
      else
        match requester with
        | some s => ms.filter (fun y => y ≠ s)
        | none => ms

/-- User row of the `users` table (`models.py`): the model keys accounts by
email and defines no username column. -/
structure User where
  id : Nat
  email : String
  is_active : Bool
deriving DecidableEq, Repr

/-- Message row created by `send_message`. -/
structure Msg where
  id : Nat
  sender_id : Nat
  recipient_id : Nat
  ciphertext : String
  nonce : Option String
  message_type : String
  created_at : String
deriving DecidableEq, Repr

/-- JSON body of `POST /send`; `none` models an absent key. -/
structure SendPayload where
  recipient : Option String := none
  ciphertext : Option String := none
  nonce : Option String := none
  message_type : Option String := none
deriving DecidableEq, Repr

/-- Outcome of the `POST /send` route: an HTTP response with the persisted
row and websocket emits, or an exception escaping the handler (the framework
turns it into a 500 error response with no further effects). -/
inductive SendResult
  | response (status : Nat) (persisted : Option Msg) (outs : List Out)
  | exc (name : String)
deriving DecidableEq, Repr

/-- Handler of `POST /send` as written: `currentUserId` is the raw string
JWT identity (`auth.py` issues `str(user.id)` and this route, unlike
`contacts.py` and `keys.py`, never converts it back to an int). After the
payload validation the handler builds
`User.query.filter_by(username=..., is_active=True)`; the users model has no
username attribute, so SQLAlchemy raises InvalidRequestError at query
construction — before any recipient lookup, self-send check, commit or
emit. -/
def send_message (_currentUserId : String) (p : SendPayload) : SendResult :=
  if !(truthy p.recipient) || !(truthy p.ciphertext) then
    SendResult.response 400 none []
  else SendResult.exc "InvalidRequestError"

/-- Modelled from the spec: `OnMessagePersisted` — the persisted-message
event the excluded CRUD/storage layer hands the gateway after a successful
database commit; no live caller exists in this source revision, because the
send route raises before reaching its commit. Per the spec, the inbox
variant routes the opaque payload to the recipient's inbox channel only,
with no self-exclusion on this path. -/
def onMessagePersisted (recipientId : Nat) (pay : Pay) : Out :=
  ⟨"new_message", Tgt.toRoom (Chan.user recipientId) true, pay⟩

/-- Modelled from the spec: the authenticated-admission variant of the
`connect` handler is absent from this source tree (only the open-admission
revision of the event-handler module is present). Per the spec, the gateway
resolves the presented credential to an identity, admits the connection only
when that identity exists and is active — auto-subscribing it to the
identity's private inbox channel before any explicit join request — and
otherwise forcibly closes the connection with no state transition. `cred` is
the outcome of `ResolveIdentity` (`none` for an invalid credential). The
returned flag records whether the connection stays open. -/
def handle_connect_auth (db : List User) (cred : Option Nat) (st : St)
    (sid : Sid) : St × List Out × Bool :=
  match cred with
  | none => (st, [], false)
  | some uid =>
      if (db.find? (fun u => u.id = uid && u.is_active)).isSome then
        ({ st with tr := troomJoin st.tr (Chan.user uid) sid },
         [⟨"connected", Tgt.toRequester, Pay.statusP "connected"⟩], true)
      else (st, [], false)

section AListLemmas

variable {α β : Type} [DecidableEq α]

theorem alookup_aupdate_self (l : List (α × β)) (k : α) (v : β) :
    alookup (aupdate l k v) k = some v := by
  induction l with
  | nil => simp [aupdate, alookup]
  | cons hd t ih =>
      obtain ⟨k', v'⟩ := hd
      by_cases hk : k' = k
      · subst hk
        simp [aupdate, alookup]
      · simp [aupdate, alookup, hk, ih]

omit [DecidableEq α] in
theorem mem_akeys_cons (k : α) (v : β) (l : List (α × β)) (a : α) :
    a ∈ akeys ((k, v) :: l) ↔ a = k ∨ a ∈ akeys l := by
  simp [akeys]

theorem alookup_aupdate_ne (l : List (α × β)) (k : α) (v : β) (a : α)
    (h : a ≠ k) : alookup (aupdate l k v) a = alookup l a := by
  induction l with
  | nil => simp [aupdate, alookup, Ne.symm h]
  | cons hd t ih =>
      obtain ⟨k', v'⟩ := hd
      by_cases hk : k' = k
      · subst hk
        simp [aupdate, alookup, Ne.symm h]
      · by_cases ha : k' = a
        · subst ha
          simp [aupdate, alookup, hk]
        · simp [aupdate, alookup, hk, ha, ih]

theorem aupdate_self_of_lookup (l : List (α × β)) (k : α) (v : β)
    (h : alookup l k = some v) : aupdate l k v = l := by
  induction l with
  | nil => simp [alookup] at h
  | cons hd t ih =>
      obtain ⟨k', v'⟩ := hd
      by_cases hk : k' = k
      · subst hk
        simp [alookup] at h
        simp [aupdate, h]
      · simp [alookup, hk] at h
        simp [aupdate, hk, ih h]

theorem alookup_eq_none_iff (l : List (α × β)) (k : α) :
    alookup l k = none ↔ k ∉ akeys l := by
  induction l with
  | nil => simp [alookup, akeys]
  | cons hd t ih =>
      obtain ⟨k', v'⟩ := hd
      rw [mem_akeys_cons]
      by_cases hk : k' = k
      · subst hk
        simp [alookup]
      · rw [alookup, if_neg hk, ih]
        simp [Ne.symm hk]

theorem mem_akeys_of_lookup (l : List (α × β)) (k : α) (v : β)
    (h : alookup l k = some v) : k ∈ akeys l := by
  by_contra hc
  rw [← alookup_eq_none_iff] at hc
  rw [h] at hc
  exact Option.noConfusion hc

theorem mem_akeys_aupdate (l : List (α × β)) (k : α) (v : β) (a : α)
    (h : a ∈ akeys l) : a ∈ akeys (aupdate l k v) := by
  induction l with
  | nil => simp [akeys] at h
  | cons hd t ih =>
      obtain ⟨k', v'⟩ := hd
      rw [mem_akeys_cons] at h
      by_cases hk : k' = k
      · subst hk
        rw [aupdate, if_pos rfl, mem_akeys_cons]
        exact h
      · rw [aupdate, if_neg hk, mem_akeys_cons]
        rcases h with h | h
        · exact Or.inl h
        · exact Or.inr (ih h)

theorem akeys_aupdate_of_mem (l : List (α × β)) (k : α) (v : β)
    (h : k ∈ akeys l) : akeys (aupdate l k v) = akeys l := by
  induction l with
  | nil => simp [akeys] at h
  | cons hd t ih =>
      obtain ⟨k', v'⟩ := hd
      rw [mem_akeys_cons] at h
      by_cases hk : k' = k
      · subst hk
        rw [aupdate, if_pos rfl]
        simp [akeys]
      · rw [aupdate, if_neg hk]
        rcases h with h | h
        · exact absurd h.symm hk
        · show k' :: akeys (aupdate t k v) = k' :: akeys t
          rw [ih h]

theorem alookup_adelete_self (l : List (α × β)) (k : α)
    (hnd : (akeys l).Nodup) : alookup (adelete l k) k = none := by
  induction l with
  | nil => simp [adelete, alookup]
  | cons hd t ih =>
      obtain ⟨k', v'⟩ := hd
      simp [akeys] at hnd
      by_cases hk : k' = k
      · subst hk
        simp only [adelete, if_pos rfl]
        rw [alookup_eq_none_iff]
        simpa [akeys] using hnd.1
      · simp [adelete, hk, alookup, ih hnd.2]

end AListLemmas

theorem not_mem_setDiscard_self (s : List Sid) (x : Sid) :
    x ∉ setDiscard s x := by
  simp [setDiscard]

theorem mem_setDiscard (s : List Sid) (x y : Sid) :
    y ∈ setDiscard s x ↔ y ∈ s ∧ y ≠ x := by
  simp [setDiscard]

theorem dcUsers_no_sid (sid : Sid) (users : UsersMap) :
    ∀ u s, (u, s) ∈ (dcUsers users sid).1 → sid ∉ s := by
  induction users with
  | nil =>
      intro u s h
      simp [dcUsers] at h
  | cons hd t ih =>
      obtain ⟨u1, sids⟩ := hd
      intro u s hmem
      by_cases hin : sid ∈ sids
      · by_cases hemp : setDiscard sids sid = []
        · simp only [dcUsers, if_pos hin, if_pos hemp] at hmem
          exact ih u s hmem
        · simp only [dcUsers, if_pos hin, if_neg hemp] at hmem
          rcases List.mem_cons.mp hmem with h | h
          · rw [Prod.mk.injEq] at h
            rw [h.2]
            exact not_mem_setDiscard_self sids sid
          · exact ih u s h
      · simp only [dcUsers, if_neg hin] at hmem
        rcases List.mem_cons.mp hmem with h | h
        · rw [Prod.mk.injEq] at h
          rw [h.2]
          exact hin
        · exact ih u s h

theorem dcUsers_dep_iff (sid : Sid) (users : UsersMap) (u : UKey) :
    u ∈ (dcUsers users sid).2 ↔
      ∃ s, (u, s) ∈ users ∧ sid ∈ s ∧ setDiscard s sid = [] := by
  induction users with
  | nil => simp [dcUsers]
  | cons hd t ih =>
      obtain ⟨u1, sids⟩ := hd
      by_cases hin : sid ∈ sids
      · by_cases hemp : setDiscard sids sid = []
        · simp only [dcUsers, if_pos hin, if_pos hemp, List.mem_cons]
          constructor
          · rintro (rfl | h)
            · exact ⟨sids, Or.inl rfl, hin, hemp⟩
            · obtain ⟨s, hs, h1, h2⟩ := ih.mp h
              exact ⟨s, Or.inr hs, h1, h2⟩
          · rintro ⟨s, hs | hs, h1, h2⟩
            · rw [Prod.mk.injEq] at hs
              exact Or.inl hs.1
            · exact Or.inr (ih.mpr ⟨s, hs, h1, h2⟩)
        · simp only [dcUsers, if_pos hin, if_neg hemp]
          rw [ih]
          constructor
          · rintro ⟨s, hs, h1, h2⟩
            exact ⟨s, List.mem_cons_of_mem _ hs, h1, h2⟩
          · rintro ⟨s, hs, h1, h2⟩
            rcases List.mem_cons.mp hs with h | h
            · rw [Prod.mk.injEq] at h
              rw [h.2] at h2
              exact absurd h2 hemp
            · exact ⟨s, h, h1, h2⟩
      · simp only [dcUsers, if_neg hin]
        rw [ih]
        constructor
        · rintro ⟨s, hs, h1, h2⟩
          exact ⟨s, List.mem_cons_of_mem _ hs, h1, h2⟩
        · rintro ⟨s, hs, h1, h2⟩
          rcases List.mem_cons.mp hs with h | h
          · rw [Prod.mk.injEq] at h
            rw [h.2] at h1
            exact absurd h1 hin
          · exact ⟨s, h, h1, h2⟩

theorem akeys_dcUsers_subset (sid : Sid) (users : UsersMap) :
    ∀ a, a ∈ akeys (dcUsers users sid).1 → a ∈ akeys users := by
  induction users with
  | nil =>
      intro a h
      simp [dcUsers, akeys] at h
  | cons hd t ih =>
      obtain ⟨u1, sids⟩ := hd
      intro a h
      rw [mem_akeys_cons]
      by_cases hin : sid ∈ sids
      · by_cases hemp : setDiscard sids sid = []
        · simp only [dcUsers, if_pos hin, if_pos hemp] at h
          exact Or.inr (ih a h)
        · simp only [dcUsers, if_pos hin, if_neg hemp] at h
          rcases (mem_akeys_cons _ _ _ _).mp h with h | h
          · exact Or.inl h
          · exact Or.inr (ih a h)
      · simp only [dcUsers, if_neg hin] at h
        rcases (mem_akeys_cons _ _ _ _).mp h with h | h
        · exact Or.inl h
        · exact Or.inr (ih a h)

theorem alookup_dcUsers_deleted (sid : Sid) (users : UsersMap) (u : UKey)
    (s : List Sid) (hnd : (akeys users).Nodup) (hs : alookup users u = some s)
    (hin : sid ∈ s) (hemp : setDiscard s sid = []) :
    alookup (dcUsers users sid).1 u = none := by
  induction users with
  | nil => simp [alookup] at hs
  | cons hd t ih =>
      obtain ⟨u1, sids⟩ := hd
      have hcons : u1 ∉ akeys t ∧ (akeys t).Nodup := by
        have : akeys ((u1, sids) :: t) = u1 :: akeys t := rfl
        rw [this, List.nodup_cons] at hnd
        exact hnd
      obtain ⟨hnd1, hnd2⟩ := hcons
      by_cases hk : u1 = u
      · subst hk
        rw [alookup, if_pos rfl] at hs
        injection hs with hs
        subst hs
        simp only [dcUsers, if_pos hin, if_pos hemp]
        rw [alookup_eq_none_iff]
        intro hcon
        exact hnd1 (akeys_dcUsers_subset sid t u1 hcon)
      · rw [alookup, if_neg hk] at hs
        have htail := ih hnd2 hs
        by_cases hin1 : sid ∈ sids
        · by_cases hemp1 : setDiscard sids sid = []
          · simp only [dcUsers, if_pos hin1, if_pos hemp1]
            exact htail
          · simp only [dcUsers, if_pos hin1, if_neg hemp1]
            rw [alookup, if_neg hk]
            exact htail
        · simp only [dcUsers, if_neg hin1]
          rw [alookup, if_neg hk]
          exact htail

theorem akeys_dcRooms (sid : Sid) (ru : Registry) :
    akeys (dcRooms ru sid).1 = akeys ru := by
  induction ru with
  | nil => simp [dcRooms]
  | cons hd t ih =>
      obtain ⟨slug, users⟩ := hd
      show slug :: akeys (dcRooms t sid).1 = slug :: akeys t
      rw [ih]

theorem dcRooms_fst_mem (sid : Sid) (ru : Registry) :
    ∀ slug users1, (slug, users1) ∈ (dcRooms ru sid).1 →
      ∃ users, (slug, users) ∈ ru ∧ users1 = (dcUsers users sid).1 := by
  induction ru with
  | nil =>
      intro slug users1 h
      simp [dcRooms] at h
  | cons hd t ih =>
      obtain ⟨slug1, users⟩ := hd
      intro slug users1 h
      rcases List.mem_cons.mp h with h | h
      · rw [Prod.mk.injEq] at h
        exact ⟨users, by rw [h.1]; exact List.mem_cons_self _ _, h.2⟩
      · obtain ⟨us, h1, h2⟩ := ih slug users1 h
        exact ⟨us, List.mem_cons_of_mem _ h1, h2⟩

theorem dcRooms_dep_iff (sid : Sid) (ru : Registry) (slug : String) (u : UKey) :
    (slug, u) ∈ (dcRooms ru sid).2 ↔
      ∃ users, (slug, users) ∈ ru ∧ u ∈ (dcUsers users sid).2 := by
  induction ru with
  | nil => simp [dcRooms]
  | cons hd t ih =>
      obtain ⟨slug1, users⟩ := hd
      show (slug, u) ∈
          (dcUsers users sid).2.map (fun k => (slug1, k)) ++ (dcRooms t sid).2 ↔ _
      rw [List.mem_append, ih]
      constructor
      · rintro (h | h)
        · obtain ⟨k, hk, hke⟩ := List.mem_map.mp h
          rw [Prod.mk.injEq] at hke
          refine ⟨users, ?_, ?_⟩
          · rw [← hke.1]
            exact List.mem_cons_self _ _
          · rw [← hke.2]
            exact hk
        · obtain ⟨us, h1, h2⟩ := h
          exact ⟨us, List.mem_cons_of_mem _ h1, h2⟩
      · rintro ⟨us, hus, hdep⟩
        rcases List.mem_cons.mp hus with h | h
        · rw [Prod.mk.injEq] at h
          refine Or.inl (List.mem_map.mpr ⟨u, ?_, by rw [h.1]⟩)
          rw [← h.2]
          exact hdep
        · exact Or.inr ⟨us, h, hdep⟩

theorem setAdd_mem (s : List Sid) (x : Sid) : x ∈ setAdd s x := by
  by_cases h : x ∈ s
  · simp [setAdd, h]
  · simp [setAdd, h]

theorem setAdd_idem (s : List Sid) (x : Sid) :
    setAdd (setAdd s x) x = setAdd s x := by
  unfold setAdd
  by_cases h : x ∈ s
  · simp [h]
  · simp [h]

theorem aupdate_idem {α β : Type} [DecidableEq α] (l : List (α × β)) (k : α)
    (v : β) : aupdate (aupdate l k v) k v = aupdate l k v :=
  aupdate_self_of_lookup _ _ _ (alookup_aupdate_self l k v)

theorem troomMembers_troomJoin_self (tr : TRooms) (c : Chan) (sid : Sid) :
    troomMembers (troomJoin tr c sid) c = setAdd (troomMembers tr c) sid := by
  unfold troomMembers troomJoin
  rw [alookup_aupdate_self]
  rfl

theorem troomJoin_idem (tr : TRooms) (c : Chan) (sid : Sid) :
    troomJoin (troomJoin tr c sid) c sid = troomJoin tr c sid := by
  show aupdate (troomJoin tr c sid) c
      (setAdd (troomMembers (troomJoin tr c sid) c) sid) = troomJoin tr c sid
  rw [troomMembers_troomJoin_self, setAdd_idem]
  exact aupdate_self_of_lookup _ _ _
    (alookup_aupdate_self tr c (setAdd (troomMembers tr c) sid))

theorem roomMap_registryAdd_self (ru : Registry) (slug : String) (u : UKey)
    (sid : Sid) :
    roomMap (registryAdd ru slug u sid) slug =
      aupdate (roomMap ru slug) u (setAdd (sidsOf ru slug u) sid) := by
  unfold roomMap registryAdd sidsOf
  rw [alookup_aupdate_self]
  rfl

theorem registryAdd_idem (ru : Registry) (slug : String) (u : UKey)
    (sid : Sid) :
    registryAdd (registryAdd ru slug u sid) slug u sid =
      registryAdd ru slug u sid := by
  show aupdate (registryAdd ru slug u sid) slug
      (aupdate (roomMap (registryAdd ru slug u sid) slug) u
        (setAdd ((alookup (roomMap (registryAdd ru slug u sid) slug) u).getD [])
          sid)) = registryAdd ru slug u sid
  rw [roomMap_registryAdd_self, alookup_aupdate_self, Option.getD_some,
    setAdd_idem, aupdate_idem]
  exact aupdate_self_of_lookup _ _ _
    (alookup_aupdate_self ru slug
      (aupdate (roomMap ru slug) u (setAdd (sidsOf ru slug u) sid)))

theorem handle_join_room_eq (st : St) (slug uname : String) (sid : Sid)
    (hslug : slug ≠ "") (hu : uname ≠ "") :
    handle_join_room st ⟨some slug, some uname⟩ sid =
      (⟨troomJoin st.tr (Chan.room slug) sid,
        registryAdd st.ru slug (some uname) sid⟩,
       [⟨"joined_room", Tgt.toRequester, Pay.slugP slug⟩,
        ⟨"user_joined", Tgt.toRoom (Chan.room slug) false,
          Pay.userP slug (some uname)⟩,
        ⟨"active_users", Tgt.toRequester,
          Pay.usersP slug
            (akeys (roomMap (registryAdd st.ru slug (some uname) sid) slug))⟩]) := by
  unfold handle_join_room
  simp [hslug, hu]

theorem handle_join_room_anon_eq (st : St) (slug : String) (sid : Sid)
    (hslug : slug ≠ "") :
    handle_join_room st ⟨some slug, none⟩ sid =
      (⟨troomJoin st.tr (Chan.room slug) sid, registryAdd st.ru slug none sid⟩,
       [⟨"joined_room", Tgt.toRequester, Pay.slugP slug⟩]) := by
  unfold handle_join_room
  simp [hslug]

theorem handle_leave_room_eq (st : St) (slug : String) (u : Option String)
    (sid : Sid) (hslug : slug ≠ "") :
    handle_leave_room st ⟨some slug, u⟩ sid =
      (⟨troomLeave st.tr (Chan.room slug) sid, (leaveUpdate st.ru slug u sid).1⟩,
       (if (leaveUpdate st.ru slug u sid).2 then [userLeftOut slug u]
        else []) ++
         [⟨"left_room", Tgt.toRequester, Pay.slugP slug⟩]) := by
  unfold handle_leave_room
  simp [hslug]

theorem leaveUpdate_untruthy (ru : Registry) (slug : String) (u : UKey)
    (sid : Sid) (hu : truthy u = false) :
    leaveUpdate ru slug u sid = (ru, false) := by
  unfold leaveUpdate
  cases h : alookup ru slug with
  | none => rfl
  | some users => rw [hu]; rfl

theorem leaveUpdate_true_iff (ru : Registry) (slug : String) (u : UKey)
    (sid : Sid) :
    (leaveUpdate ru slug u sid).2 = true ↔
      ∃ users sids, alookup ru slug = some users ∧ truthy u = true ∧
        alookup users u = some sids ∧ setDiscard sids sid = [] := by
  unfold leaveUpdate
  cases h : alookup ru slug with
  | none => simp
  | some users =>
      by_cases hu : truthy u = true
      · cases hs : alookup users u with
        | none => simp [hu, hs]
        | some sids =>
            by_cases hemp : setDiscard sids sid = []
            · simp [hu, hs, hemp]
            · simp [hu, hs, hemp]
      · simp only [Bool.not_eq_true] at hu
        simp [hu]

theorem alookup_dcRooms (sid : Sid) (ru : Registry) (slug : String) :
    alookup (dcRooms ru sid).1 slug =
      (alookup ru slug).map (fun users => (dcUsers users sid).1) := by
  induction ru with
  | nil => simp [dcRooms, alookup]
  | cons hd t ih =>
      obtain ⟨slug1, users⟩ := hd
      by_cases hk : slug1 = slug
      · subst hk
        show (if slug1 = slug1 then some (dcUsers users sid).1 else _) = _
        simp [alookup]
      · show (if slug1 = slug then some (dcUsers users sid).1 else _) = _
        rw [if_neg hk, ih]
        simp [alookup, hk]

theorem handle_join_room_state (st : St) (slug : String) (un : Option String)
    (sid : Sid) (hslug : slug ≠ "") :
    (handle_join_room st ⟨some slug, un⟩ sid).1 =
      ⟨troomJoin st.tr (Chan.room slug) sid, registryAdd st.ru slug un sid⟩ := by
  unfold handle_join_room
  simp [hslug]

theorem akeys_leaveUpdate (ru : Registry) (slug : String) (u : UKey)
    (sid : Sid) : akeys (leaveUpdate ru slug u sid).1 = akeys ru := by
  unfold leaveUpdate
  cases h : alookup ru slug with
  | none => rfl
  | some users =>
      by_cases hu : truthy u = true
      · cases hs : alookup users u with
        | none => simp [hu, hs]
        | some sids =>
            have hmem := mem_akeys_of_lookup ru slug users h
            have e1 : akeys (aupdate ru slug (adelete users u)) = akeys ru :=
              akeys_aupdate_of_mem _ _ _ hmem
            have e2 : akeys (aupdate ru slug
                (aupdate users u (setDiscard sids sid))) = akeys ru :=
              akeys_aupdate_of_mem _ _ _ hmem
            by_cases hemp : setDiscard sids sid = []
            · simp [hu, hs, hemp, e1]
            · simp [hu, hs, hemp, e2]
      · simp only [Bool.not_eq_true] at hu
        simp [hu]

/-- C6: Subscribe is idempotent and total: applying `handle_join_room` twice
with the same (channel, identity, connection) triple produces the same shared
state (transport rooms and registry) as applying it once — the channel and
identity entries are created if absent and the session id is added to the
identity's set — and the handler is a total function with no failure path. -/
theorem subscribe_idempotent (st : St) (d : Data) (sid : Sid) :
    (handle_join_room (handle_join_room st d sid).1 d sid).1 =
      (handle_join_room st d sid).1 := by
  obtain ⟨rs, un⟩ := d
  cases rs with
  | none => rfl
  | some slug =>
      by_cases hslug : slug = ""
      · subst hslug
        simp [handle_join_room]
      · rw [handle_join_room_state st slug un sid hslug,
          handle_join_room_state _ slug un sid hslug]
        simp [troomJoin_idem, registryAdd_idem]

/-- C8: a `join_room` or `leave_room` request whose payload lacks the channel
key leaves the shared state (registry and transport rooms) unchanged and
emits no event at all — no error is surfaced and nothing closes the
connection; the request is silently dropped. -/
theorem malformed_payload_silently_ignored (st : St) (u : Option String)
    (sid : Sid) :
    handle_join_room st ⟨none, u⟩ sid = (st, []) ∧
    handle_leave_room st ⟨none, u⟩ sid = (st, []) :=
  ⟨rfl, rfl⟩

/-- C5: unsubscribing the last connection of a present identity deletes that
identity's entry from the channel map entirely and raises the fully-departed
signal, after which `handle_leave_room` emits exactly one `user_left`
broadcast; repeating the unsubscribe for the now-absent pair leaves the
registry unchanged and raises no signal. -/
theorem unsubscribe_last_departs_once (ru : Registry) (slug : String)
    (u : UKey) (sid : Sid) (users : UsersMap) (sids : List Sid)
    (hnd : (akeys users).Nodup)
    (hru : alookup ru slug = some users)
    (hu : truthy u = true)
    (hsids : alookup users u = some sids)
    (hlast : setDiscard sids sid = []) :
    (leaveUpdate ru slug u sid).2 = true ∧
    alookup (roomMap (leaveUpdate ru slug u sid).1 slug) u = none ∧
    leaveUpdate (leaveUpdate ru slug u sid).1 slug u sid =
      ((leaveUpdate ru slug u sid).1, false) ∧
    (∀ st : St, st.ru = ru → slug ≠ "" →
      (handle_leave_room st ⟨some slug, u⟩ sid).2 =
        [userLeftOut slug u,
         ⟨"left_room", Tgt.toRequester, Pay.slugP slug⟩]) := by
  have hstep : leaveUpdate ru slug u sid =
      (aupdate ru slug (adelete users u), true) := by
    unfold leaveUpdate
    simp [hru, hu, hsids, hlast]
  have hroom : roomMap (aupdate ru slug (adelete users u)) slug =
      adelete users u := by
    unfold roomMap
    rw [alookup_aupdate_self]
    rfl
  have hgone : alookup (adelete users u) u = none :=
    alookup_adelete_self users u hnd
  refine ⟨by rw [hstep], ?_, ?_, ?_⟩
  · rw [hstep, hroom]
    exact hgone
  · rw [hstep]
    unfold leaveUpdate
    rw [alookup_aupdate_self]
    simp [hu, hgone]
  · intro st hst hslug
    rw [handle_leave_room_eq st slug u sid hslug, hst, hstep]
    rfl

/-- C5 witness. -/
theorem unsubscribe_last_departs_once_witness :
    (leaveUpdate [("lobby", [(some "alice", [1])])] "lobby" (some "alice") 1).2
      = true ∧
    alookup (roomMap
      (leaveUpdate [("lobby", [(some "alice", [1])])] "lobby"
        (some "alice") 1).1 "lobby") (some "alice") = none :=
  ⟨(unsubscribe_last_departs_once [("lobby", [(some "alice", [1])])] "lobby"
      (some "alice") 1 [(some "alice", [1])] [1] (by decide) rfl (by decide)
      rfl (by decide)).1,
   (unsubscribe_last_departs_once [("lobby", [(some "alice", [1])])] "lobby"
      (some "alice") 1 [(some "alice", [1])] [1] (by decide) rfl (by decide)
      rfl (by decide)).2.1⟩

/-- C4: on disconnect the handler removes the session id from every
(channel, identity) entry in which it appears, and the `user_left` broadcasts
are exactly the images of the (channel, identity) pairs whose connection set
contained the session id and nothing but it. -/
theorem disconnect_unsubscribes_everywhere (st : St) (sid : Sid) :
    handle_disconnect st sid =
      (⟨st.tr, (dcRooms st.ru sid).1⟩,
       ((dcRooms st.ru sid).2).map (fun p => userLeftOut p.1 p.2)) ∧
    (∀ slug users1, (slug, users1) ∈ (handle_disconnect st sid).1.ru →
       ∀ u s, (u, s) ∈ users1 → sid ∉ s) ∧
    (∀ slug u, (slug, u) ∈ (dcRooms st.ru sid).2 ↔
       ∃ users s, (slug, users) ∈ st.ru ∧ (u, s) ∈ users ∧ sid ∈ s ∧
         setDiscard s sid = []) := by
  refine ⟨rfl, ?_, ?_⟩
  · intro slug users1 hmem u s hus
    obtain ⟨users, hr, hEq⟩ := dcRooms_fst_mem sid st.ru slug users1 hmem
    exact dcUsers_no_sid sid users u s (hEq ▸ hus)
  · intro slug u
    rw [dcRooms_dep_iff]
    constructor
    · rintro ⟨users, h1, h2⟩
      obtain ⟨s, hs1, hs2, hs3⟩ := (dcUsers_dep_iff sid users u).mp h2
      exact ⟨users, s, h1, hs1, hs2, hs3⟩
    · rintro ⟨users, s, h1, h2, h3, h4⟩
      exact ⟨users, h1, (dcUsers_dep_iff sid users u).mpr ⟨s, h2, h3, h4⟩⟩

/-- C4 witness. -/
theorem disconnect_unsubscribes_everywhere_witness :
    ("lobby", some "alice") ∈
      (dcRooms [("lobby", [(some "alice", [1]), (some "bob", [1, 2])])] 1).2 :=
  ((disconnect_unsubscribes_everywhere
      ⟨[], [("lobby", [(some "alice", [1]), (some "bob", [1, 2])])]⟩ 1).2.2
    "lobby" (some "alice")).mpr
    ⟨[(some "alice", [1]), (some "bob", [1, 2])], [1], by decide, by decide,
     by decide, by decide⟩

/-- C9: no operation ever removes a channel key from the registry: a join can
only add keys, and leave, explicit user-left and disconnect leave the key set
unchanged — an emptied channel persists as an empty identity map. -/
theorem channel_keys_never_removed (st : St) (d : Data) (sid : Sid) :
    (∀ slug, slug ∈ akeys st.ru →
       slug ∈ akeys (handle_join_room st d sid).1.ru) ∧
    akeys (handle_leave_room st d sid).1.ru = akeys st.ru ∧
    akeys (handle_user_left st d sid).1.ru = akeys st.ru ∧
    akeys (handle_disconnect st sid).1.ru = akeys st.ru := by
  obtain ⟨rs, un⟩ := d
  refine ⟨?_, ?_, ?_, akeys_dcRooms sid st.ru⟩
  · intro slug0 hmem
    cases rs with
    | none => exact hmem
    | some slug =>
        by_cases hslug : slug = ""
        · subst hslug
          simpa [handle_join_room] using hmem
        · rw [handle_join_room_state st slug un sid hslug]
          exact mem_akeys_aupdate _ _ _ _ hmem
  · cases rs with
    | none => rfl
    | some slug =>
        by_cases hslug : slug = ""
        · subst hslug
          simp [handle_leave_room]
        · rw [handle_leave_room_eq st slug un sid hslug]
          exact akeys_leaveUpdate st.ru slug un sid
  · by_cases hg : (truthy rs && truthy un) = true
    · simp [handle_user_left, hg, akeys_leaveUpdate]
    · simp [handle_user_left, hg]

/-- C9 witness. -/
theorem channel_keys_never_removed_witness :
    "lobby" ∈ akeys (handle_join_room (⟨[], [("lobby", [])]⟩ : St)
      ⟨some "den", some "carol"⟩ 2).1.ru :=
  (channel_keys_never_removed ⟨[], [("lobby", [])]⟩ ⟨some "den", some "carol"⟩
    2).1 "lobby" (by decide)

/-- C1 counterexample: with identity "alice" holding connections 1 and 2 in
channel "lobby", the explicit `user_left` relay handler broadcasts a
departure announcement for "alice" on a leave notification from connection 1
although connection 2 remains registered in the channel — so a handler does
emit a departure for an identity that still has remaining connections. -/
theorem user_left_relay_announces_with_remaining :
    (⟨"user_left", Tgt.toRoom (Chan.room "lobby") false,
       Pay.userP "lobby" (some "alice")⟩ : Out) ∈
      (handle_user_left ⟨[(Chan.room "lobby", [1, 2])],
        [("lobby", [(some "alice", [1, 2])])]⟩
        ⟨some "lobby", some "alice"⟩ 1).2 ∧
    alookup (roomMap (handle_user_left ⟨[(Chan.room "lobby", [1, 2])],
        [("lobby", [(some "alice", [1, 2])])]⟩
        ⟨some "lobby", some "alice"⟩ 1).1.ru "lobby") (some "alice") =
      some [2] := by
  constructor
  · decide
  · decide

/-- C1 (amended): the `leave_room` and `disconnect` handlers announce a
departure only on the registry's fully-departed signal — `leave_room` emits a
`user_left` exactly when the identity entry is deleted, at most one per
request, and every disconnect departure pair had the disconnecting session as
its only connection — but the explicit `user_left` relay handler rebroadcasts
an announcement unconditionally on any well-formed payload, even for an
identity with remaining connections. -/
theorem departure_announcements_guarded (st : St) (slug : String)
    (u : Option String) (sid : Sid) (hslug : slug ≠ "") :
    ((∃ o ∈ (handle_leave_room st ⟨some slug, u⟩ sid).2,
        o.name = "user_left") ↔ (leaveUpdate st.ru slug u sid).2 = true) ∧
    ((leaveUpdate st.ru slug u sid).2 = true →
       ∃ users sids, alookup st.ru slug = some users ∧ truthy u = true ∧
         alookup users u = some sids ∧ setDiscard sids sid = []) ∧
    ((handle_leave_room st ⟨some slug, u⟩ sid).2.filter
        (fun o => o.name == "user_left")).length ≤ 1 ∧
    (∀ slug1 u1, (slug1, u1) ∈ (dcRooms st.ru sid).2 →
       ∃ users s, (slug1, users) ∈ st.ru ∧ (u1, s) ∈ users ∧ sid ∈ s ∧
         setDiscard s sid = []) := by
  rw [handle_leave_room_eq st slug u sid hslug]
  refine ⟨?_, ?_, ?_, ?_⟩
  · by_cases hd : (leaveUpdate st.ru slug u sid).2 = true
    · simp [hd, userLeftOut]
    · simp only [Bool.not_eq_true] at hd
      simp [hd]
  · exact fun h => (leaveUpdate_true_iff st.ru slug u sid).mp h
  · by_cases hd : (leaveUpdate st.ru slug u sid).2 = true
    · simp [hd, userLeftOut]
    · simp only [Bool.not_eq_true] at hd
      simp [hd]
  · intro slug1 u1 hmem
    obtain ⟨users, h1, h2⟩ := (dcRooms_dep_iff sid st.ru slug1 u1).mp hmem
    obtain ⟨s, hs1, hs2, hs3⟩ := (dcUsers_dep_iff sid users u1).mp h2
    exact ⟨users, s, h1, hs1, hs2, hs3⟩

/-- C1 witness. -/
theorem departure_announcements_guarded_witness :
    ((handle_leave_room ⟨[], [("lobby", [(some "alice", [1])])]⟩
        ⟨some "lobby", some "alice"⟩ 1).2.filter
      (fun o => o.name == "user_left")).length ≤ 1 :=
  (departure_announcements_guarded
    ⟨[], [("lobby", [(some "alice", [1])])]⟩ "lobby" (some "alice") 1
    (by decide)).2.2.1

/-- C3 counterexample: in the two-client scenario (alice joins "lobby" from
connection 1, then bob joins from connection 2) the snapshot sent to bob is
computed after bob's insertion, so bob receives active_users [alice, bob] and
not the claimed active_users [alice]. -/
theorem join_snapshot_contains_joiner :
    (⟨"active_users", Tgt.toRequester,
       Pay.usersP "lobby" [some "alice", some "bob"]⟩ : Out) ∈
      (handle_join_room
        (handle_join_room ⟨[], []⟩ ⟨some "lobby", some "alice"⟩ 1).1
        ⟨some "lobby", some "bob"⟩ 2).2 ∧
    (⟨"active_users", Tgt.toRequester,
       Pay.usersP "lobby" [some "alice"]⟩ : Out) ∉
      (handle_join_room
        (handle_join_room ⟨[], []⟩ ⟨some "lobby", some "alice"⟩ 1).1
        ⟨some "lobby", some "bob"⟩ 2).2 := by
  constructor
  · decide
  · decide

/-- C3 (amended): when a connection joins a room channel with an identity
label, the user_joined announcement reaches exactly the other connections of
the channel, never the joiner, and the active_users snapshot sent to the
joiner lists the identities present after the join — including the joiner's
own identity. -/
theorem join_announcement_and_snapshot (st : St) (slug uname : String)
    (sid : Sid) (hslug : slug ≠ "") (hu : uname ≠ "") :
    (handle_join_room st ⟨some slug, some uname⟩ sid).2 =
      [⟨"joined_room", Tgt.toRequester, Pay.slugP slug⟩,
       ⟨"user_joined", Tgt.toRoom (Chan.room slug) false,
         Pay.userP slug (some uname)⟩,
       ⟨"active_users", Tgt.toRequester,
         Pay.usersP slug (akeys (roomMap
           (handle_join_room st ⟨some slug, some uname⟩ sid).1.ru slug))⟩] ∧
    some uname ∈ akeys (roomMap
      (handle_join_room st ⟨some slug, some uname⟩ sid).1.ru slug) ∧
    (∀ s2, s2 ∈ recipients
        (handle_join_room st ⟨some slug, some uname⟩ sid).1.tr (some sid)
        ⟨"user_joined", Tgt.toRoom (Chan.room slug) false,
          Pay.userP slug (some uname)⟩ ↔
      s2 ∈ troomMembers
        (handle_join_room st ⟨some slug, some uname⟩ sid).1.tr
        (Chan.room slug) ∧ s2 ≠ sid) ∧
    sid ∉ recipients
      (handle_join_room st ⟨some slug, some uname⟩ sid).1.tr (some sid)
      ⟨"user_joined", Tgt.toRoom (Chan.room slug) false,
        Pay.userP slug (some uname)⟩ := by
  rw [handle_join_room_eq st slug uname sid hslug hu]
  refine ⟨rfl, ?_, ?_, ?_⟩
  · show some uname ∈ akeys (roomMap (registryAdd st.ru slug (some uname) sid) slug)
    rw [roomMap_registryAdd_self]
    exact mem_akeys_of_lookup _ _ _ (alookup_aupdate_self _ _ _)
  · intro s2
    simp [recipients]
  · simp [recipients]

/-- C3 witness. -/
theorem join_announcement_and_snapshot_witness :
    some "bob" ∈ akeys (roomMap
      (handle_join_room
        ⟨[(Chan.room "lobby", [1])], [("lobby", [(some "alice", [1])])]⟩
        ⟨some "lobby", some "bob"⟩ 2).1.ru "lobby") :=
  (join_announcement_and_snapshot
    ⟨[(Chan.room "lobby", [1])], [("lobby", [(some "alice", [1])])]⟩
    "lobby" "bob" 2 (by decide) (by decide)).2.1

/-- C10: joining a room without an identity label still creates a registry
entry keyed by the absent label (None) holding the connection's handle; that
None key then appears in the active-identities snapshot sent to any later
joiner who supplies a label; an explicit leave or user_left without the label
never changes the registry; a transport disconnect does remove the entry. -/
theorem anonymous_join_none_entry (st : St) (slug : String) (sid : Sid)
    (hslug : slug ≠ "") :
    sid ∈ sidsOf (handle_join_room st ⟨some slug, none⟩ sid).1.ru slug none ∧
    (∀ (st2 : St) (uname : String) (sid2 : Sid), uname ≠ "" →
       none ∈ akeys (roomMap st2.ru slug) →
       (⟨"active_users", Tgt.toRequester,
          Pay.usersP slug (akeys (roomMap
            (handle_join_room st2 ⟨some slug, some uname⟩ sid2).1.ru
            slug))⟩ : Out) ∈
         (handle_join_room st2 ⟨some slug, some uname⟩ sid2).2 ∧
       none ∈ akeys (roomMap
         (handle_join_room st2 ⟨some slug, some uname⟩ sid2).1.ru slug)) ∧
    (∀ (st3 : St) (sid3 : Sid),
       (handle_leave_room st3 ⟨some slug, none⟩ sid3).1.ru = st3.ru ∧
       (handle_user_left st3 ⟨some slug, none⟩ sid3).1.ru = st3.ru) ∧
    (∀ (st4 : St) (users : UsersMap) (s : List Sid),
       alookup st4.ru slug = some users → (akeys users).Nodup →
       alookup users none = some s → sid ∈ s → setDiscard s sid = [] →
       alookup (roomMap (handle_disconnect st4 sid).1.ru slug) none = none) := by
  refine ⟨?_, ?_, ?_, ?_⟩
  · rw [handle_join_room_state st slug none sid hslug]
    show sid ∈ sidsOf (registryAdd st.ru slug none sid) slug none
    unfold sidsOf
    rw [roomMap_registryAdd_self, alookup_aupdate_self, Option.getD_some]
    exact setAdd_mem _ _
  · intro st2 uname sid2 hu hnone
    constructor
    · rw [handle_join_room_eq st2 slug uname sid2 hslug hu]
      simp
    · rw [handle_join_room_state st2 slug uname sid2 hslug]
      show none ∈ akeys (roomMap (registryAdd st2.ru slug (some uname) sid2) slug)
      rw [roomMap_registryAdd_self]
      exact mem_akeys_aupdate _ _ _ _ hnone
  · intro st3 sid3
    constructor
    · rw [handle_leave_room_eq st3 slug none sid3 hslug]
      show (leaveUpdate st3.ru slug none sid3).1 = st3.ru
      rw [leaveUpdate_untruthy st3.ru slug none sid3 rfl]
    · simp [handle_user_left, truthy]
  · intro st4 users s h1 hnd h2 h3 h4
    show alookup (roomMap (dcRooms st4.ru sid).1 slug) none = none
    unfold roomMap
    rw [alookup_dcRooms, h1, Option.map_some', Option.getD_some]
    exact alookup_dcUsers_deleted sid users none s hnd h2 h3 h4

/-- C10 witness. -/
theorem anonymous_join_none_entry_witness :
    3 ∈ sidsOf (handle_join_room (⟨[], []⟩ : St)
      ⟨some "lobby", none⟩ 3).1.ru "lobby" none :=
  (anonymous_join_none_entry ⟨[], []⟩ "lobby" 3 (by decide)).1

/-- C7 (code evaluation at the failing input): the authenticated sender with
JWT identity "1" posting recipient "bob" with a ciphertext gets the
InvalidRequestError raised at `User.query.filter_by(username=...)` — the
users model has no username column — and in general `send_message` either
rejects the payload with a 400 or raises before any lookup, self-send check,
commit or broadcast, so no execution of the route ever emits a
`new_message` event. -/
theorem send_message_never_emits :
    send_message "1" ⟨some "bob", some "c1", none, none⟩ =
      SendResult.exc "InvalidRequestError" ∧
    (∀ (uid : String) (p : SendPayload),
      send_message uid p = SendResult.response 400 none [] ∨
      send_message uid p = SendResult.exc "InvalidRequestError") := by
  refine ⟨rfl, ?_⟩
  intro uid p
  unfold send_message
  by_cases h : (!(truthy p.recipient) || !(truthy p.ciphertext)) = true
  · rw [if_pos h]
    exact Or.inl rfl
  · rw [if_neg h]
    exact Or.inr rfl

/-- C2 (spec-modelled): under authenticated admission with a credential
resolving to an active identity, the connection is subscribed to that
identity's private inbox channel while the join registry is untouched (no
join request was processed), and a persisted-message event targeted at that
identity's inbox channel — the spec's `OnMessagePersisted` input, external
to the core — is delivered to the connection; an invalid credential closes
the connection with no state transition at all. -/
theorem inbox_auto_subscribe_delivery (db : List User) (st : St)
    (sid : Sid) (uid : Nat)
    (hactive : (db.find? (fun u => u.id = uid && u.is_active)).isSome = true) :
    (handle_connect_auth db (some uid) st sid).2.2 = true ∧
    sid ∈ troomMembers (handle_connect_auth db (some uid) st sid).1.tr
      (Chan.user uid) ∧
    (handle_connect_auth db (some uid) st sid).1.ru = st.ru ∧
    (∀ pay : Pay, sid ∈ recipients
       (handle_connect_auth db (some uid) st sid).1.tr none
       (onMessagePersisted uid pay)) ∧
    handle_connect_auth db none st sid = (st, [], false) := by
  have hstep : handle_connect_auth db (some uid) st sid =
      ({ st with tr := troomJoin st.tr (Chan.user uid) sid },
       [⟨"connected", Tgt.toRequester, Pay.statusP "connected"⟩], true) := by
    unfold handle_connect_auth
    simp [hactive]
  refine ⟨by rw [hstep], ?_, by rw [hstep], ?_, rfl⟩
  · rw [hstep]
    show sid ∈ troomMembers (troomJoin st.tr (Chan.user uid) sid) (Chan.user uid)
    rw [troomMembers_troomJoin_self]
    exact setAdd_mem _ _
  · intro pay
    rw [hstep]
    show sid ∈ recipients (troomJoin st.tr (Chan.user uid) sid) none
      (onMessagePersisted uid pay)
    simp [recipients, onMessagePersisted, troomMembers_troomJoin_self,
      setAdd_mem]

/-- C2 witness. -/
theorem inbox_auto_subscribe_delivery_witness :
    5 ∈ troomMembers
      (handle_connect_auth [⟨2, "bob@example.com", true⟩] (some 2)
        (⟨[], []⟩ : St) 5).1.tr (Chan.user 2) :=
  (inbox_auto_subscribe_delivery [⟨2, "bob@example.com", true⟩] ⟨[], []⟩ 5 2
    (by decide)).2.1

end ChatRelay
